import Mathlib

/-!
Verification of the AutoCare Pro conversation-synchronization layer
(`MessageProvider` in `frontend/src/components/admin/AdminUserConversations.jsx`,
plus the summary-based variant of the same context).

Shallow embedding conventions:
* JavaScript objects with optional / heterogeneous fields become structures of
  `Option` fields; an absent field is `none`.
* JS string falsiness (`""` is falsy) is modelled by `truthyStr`; `a || b` on
  string-valued fields is `jsOrStr`.  Date-valued fields (`createdAt`,
  `timestamp`) hold the parsed instant as a `Nat`; a present date string or
  `Date` object is always truthy, so `a || b` on them is `Option.orElse`.
* `Date.now()` and the random id suffix are passed in as parameters (`now`,
  `rand` / a stream `fresh : Nat → String`), making the nondeterminism explicit.
* A user reference field (`sender` / `recipient`) in the API payloads is either
  a plain id string or a populated object `{_id, name, email}`; both collapse
  to `Ref`, whose `rid` is the id the code extracts via `x?._id || x`
  (`plain := true` marks the plain-string shape).
* `localStorage` becomes an association list from full key strings to parsed
  message arrays, plus a separate list for the `autocare_message_users` key.
* `JSON.parse ∘ JSON.stringify` round-trips are identities in the model.
-/

namespace AutoCare

/-- JS truthiness for an optional string: `""` and absence are falsy. -/
def truthyStr : Option String → Option String
  | some s => if s = "" then none else some s
  | none => none

/-- JS `a || b` for string-valued fields: returns `b` as-is when `a` is falsy. -/
def jsOrStr (a b : Option String) : Option String :=
  match truthyStr a with
  | some s => some s
  | none => b

/-- JS `a || b` for date-valued fields (a present date is always truthy). -/
def jsOrDate (a b : Option Nat) : Option Nat :=
  match a with
  | some n => some n
  | none => b

/-- A user reference as it appears in API payloads: either a populated object
`{_id, name, email}` or a plain id string (`plain = true`).  `rid` is the id
the code obtains by `x?._id || x`. -/
structure Ref where
  rid : String
  name : Option String := none
  email : Option String := none
  plain : Bool := false
deriving Repr, DecidableEq

/-- A message-shaped JS object.  All fields the synchronization layer ever
reads are present as options; fields it never reads are omitted. -/
@[ext]
structure MsgObj where
  id : Option String := none
  /-- the `_id` field -/
  mid : Option String := none
  text : Option String := none
  senderType : Option String := none
  sender : Option Ref := none
  recipient : Option Ref := none
  conversation : Option String := none
  /-- parsed instant of the `createdAt` field -/
  createdAt : Option Nat := none
  /-- parsed instant of the `timestamp` field -/
  timestamp : Option Nat := none
  pending : Bool := false
deriving Repr, DecidableEq

/-- The generated default identifier `` `${Date.now()}-${Math.random()...}` ``. -/
def genId (now : Nat) (rand : String) : String :=
  toString now ++ "-" ++ rand

/-- `normalizeMessage` on a non-null input (the body after the `!message`
guard): coalesce `createdAt || timestamp || now`, `senderType || sender`,
`id || _id || generated`, and spread the rest of the object unchanged. -/
def normalizeMsg1 (now : Nat) (rand : String) (m : MsgObj) : MsgObj :=
  { m with
    createdAt := some ((jsOrDate m.createdAt m.timestamp).getD now)
    senderType := jsOrStr m.senderType (m.sender.map Ref.rid)
    id := some ((truthyStr (jsOrStr m.id m.mid)).getD (genId now rand)) }

/-- `normalizeMessage`: `null`/absent input yields `null`, otherwise the
coalesced canonical record. -/
def normalizeMessage (now : Nat) (rand : String) : Option MsgObj → Option MsgObj
  | none => none
  | some m => some (normalizeMsg1 now rand m)

/-- The sort key `new Date(a.createdAt)` used by the batch normalizer.  Inside
`normalizeMessagesArray` every element has `createdAt` set, so the default is
never consulted there. -/
def keyOf (m : MsgObj) : Nat :=
  m.createdAt.getD 0

/-- The comparator `(a, b) => new Date(a.createdAt) - new Date(b.createdAt)`
(ascending). -/
def leKey (a b : MsgObj) : Prop :=
  keyOf a ≤ keyOf b

instance : DecidableRel leKey := fun a b =>
  inferInstanceAs (Decidable (keyOf a ≤ keyOf b))

instance : IsTotal MsgObj leKey :=
  ⟨fun a b => Nat.le_total (keyOf a) (keyOf b)⟩

instance : IsTrans MsgObj leKey :=
  ⟨fun _ _ _ => Nat.le_trans⟩

/-- `arr.map(normalizeMessage).filter(Boolean)`, with the id generator applied
per element (index `i` feeds the stream `fresh`). -/
def normMap (now : Nat) (fresh : Nat → String) : Nat → List (Option MsgObj) → List MsgObj
  | _, [] => []
  | i, o :: rest =>
    match o with
    | some m => normalizeMsg1 now (fresh i) m :: normMap now fresh (i + 1) rest
    | none => normMap now fresh (i + 1) rest

/-- `normalizeMessagesArray`: map the normalizer, drop nulls, and sort
ascending by timestamp.  JS `Array.prototype.sort` is stable, which insertion
sort models exactly. -/
def normalizeMessagesArray (now : Nat) (fresh : Nat → String)
    (arr : List (Option MsgObj)) : List MsgObj :=
  List.insertionSort leKey (normMap now fresh 0 arr)

/-! ### Properties of the batch normalizer -/

theorem normMap_length (now : Nat) (fresh : Nat → String) :
    ∀ (i : Nat) (arr : List (Option MsgObj)),
      (normMap now fresh i arr).length = arr.countP Option.isSome
  | _, [] => rfl
  | i, some _ :: rest => by
    simp [normMap, List.countP_cons, normMap_length now fresh (i + 1) rest]
  | i, none :: rest => by
    simp [normMap, List.countP_cons, normMap_length now fresh (i + 1) rest]

theorem normMap_map_some_length (now : Nat) (fresh : Nat → String) :
    ∀ (i : Nat) (l : List MsgObj), (normMap now fresh i (l.map some)).length = l.length
  | _, [] => rfl
  | i, _ :: t => by
    simp [normMap, normMap_map_some_length now fresh (i + 1) t]

/-- A record the normalizer maps to itself, whatever random suffix is drawn:
its identifier is already a truthy string, its timestamp is set, and its
sender-role coalescing is saturated. -/
def NormFixed (now : Nat) (x : MsgObj) : Prop :=
  ∀ rand : String, normalizeMsg1 now rand x = x

theorem genId_ne_empty (now : Nat) (rand : String) : genId now rand ≠ "" := by
  intro h
  have hlen : (genId now rand).length = 0 := by rw [h]; rfl
  rw [genId, String.length_append, String.length_append] at hlen
  have : ("-").length = 1 := by decide
  omega

theorem jsOrStr_saturated (a b : Option String) :
    jsOrStr (jsOrStr a b) b = jsOrStr a b := by
  unfold jsOrStr truthyStr
  match a with
  | none =>
    match b with
    | none => rfl
    | some s => by_cases h : s = "" <;> simp [h]
  | some s =>
    by_cases h : s = ""
    · simp only [h, if_pos rfl]
      match b with
      | none => rfl
      | some t => by_cases ht : t = "" <;> simp [ht]
    · simp [h]

theorem truthyStr_getD_ne_empty (o : Option String) (d : String) (hd : d ≠ "") :
    (truthyStr o).getD d ≠ "" := by
  match o with
  | none => exact hd
  | some s =>
    by_cases hs : s = ""
    · simp only [truthyStr, hs, if_pos]
      exact hd
    · simpa [truthyStr, hs] using hs

theorem normFixed_normalizeMsg1 (now : Nat) (rand : String) (m : MsgObj) :
    NormFixed now (normalizeMsg1 now rand m) := by
  intro r
  set v := (truthyStr (jsOrStr m.id m.mid)).getD (genId now rand) with hv
  have hne : v ≠ "" := truthyStr_getD_ne_empty _ _ (genId_ne_empty now rand)
  have h1 : truthyStr (some v) = some v := by
    show (if v = "" then none else some v : Option String) = some v
    rw [if_neg hne]
  have h2 : jsOrStr (some v) m.mid = some v := by
    show (match truthyStr (some v) with | some s => some s | none => m.mid) = some v
    rw [h1]
  refine MsgObj.ext ?_ rfl rfl ?_ rfl rfl rfl rfl rfl rfl
  · show some ((truthyStr (jsOrStr (some v) m.mid)).getD (genId now r)) = some v
    rw [h2, h1, Option.getD_some]
  · show jsOrStr (jsOrStr m.senderType (m.sender.map Ref.rid)) (m.sender.map Ref.rid) =
      jsOrStr m.senderType (m.sender.map Ref.rid)
    exact jsOrStr_saturated m.senderType (m.sender.map Ref.rid)

theorem normMap_map_some_of_fixed (now : Nat) (fresh : Nat → String) :
    ∀ (i : Nat) (l : List MsgObj), (∀ x ∈ l, NormFixed now x) →
      normMap now fresh i (l.map some) = l
  | _, [], _ => rfl
  | i, x :: t, h => by
    simp only [List.map_cons, normMap]
    rw [h x (by simp) (fresh i),
      normMap_map_some_of_fixed now fresh (i + 1) t fun y hy => h y (by simp [hy])]

theorem normMap_mem_fixed (now : Nat) (fresh : Nat → String) :
    ∀ (i : Nat) (arr : List (Option MsgObj)) (x : MsgObj),
      x ∈ normMap now fresh i arr → NormFixed now x
  | _, [], x, h => absurd h (List.not_mem_nil x)
  | i, some m :: rest, x, h => by
    rcases (List.mem_cons.mp h) with h1 | h2
    · exact h1 ▸ normFixed_normalizeMsg1 now (fresh i) m
    · exact normMap_mem_fixed now fresh (i + 1) rest x h2
  | i, none :: rest, x, h => normMap_mem_fixed now fresh (i + 1) rest x h

theorem filter_key_orderedInsert (k : Nat) (a : MsgObj) :
    ∀ l : List MsgObj,
      (List.orderedInsert leKey a l).filter (fun m => keyOf m == k) =
        if keyOf a = k then a :: l.filter (fun m => keyOf m == k)
        else l.filter (fun m => keyOf m == k)
  | [] => by
    by_cases h : keyOf a = k <;> simp [List.orderedInsert, List.filter_cons, h]
  | b :: t => by
    by_cases hab : leKey a b
    · have step : List.orderedInsert leKey a (b :: t) = a :: b :: t := by
        simp only [List.orderedInsert]
        rw [if_pos hab]
      rw [step]
      by_cases h : keyOf a = k <;> by_cases hb : keyOf b = k <;>
        simp [List.filter_cons, h, hb]
    · have hba : keyOf b < keyOf a := Nat.lt_of_not_le hab
      have step : List.orderedInsert leKey a (b :: t) =
          b :: List.orderedInsert leKey a t := by
        simp only [List.orderedInsert]
        rw [if_neg hab]
      rw [step]
      by_cases h : keyOf a = k
      · have hbk : keyOf b ≠ k := by omega
        simp [List.filter_cons, h, hbk, filter_key_orderedInsert k a t]
      · by_cases hb : keyOf b = k <;>
          simp [List.filter_cons, h, hb, filter_key_orderedInsert k a t]

/-- Stability of the batch normalizer's sort: elements with one fixed key keep
their relative order (the classical stability characterization). -/
theorem filter_key_insertionSort (k : Nat) :
    ∀ l : List MsgObj,
      (List.insertionSort leKey l).filter (fun m => keyOf m == k) =
        l.filter (fun m => keyOf m == k)
  | [] => rfl
  | x :: t => by
    rw [List.insertionSort, filter_key_orderedInsert k x (List.insertionSort leKey t),
      filter_key_insertionSort k t, List.filter_cons]
    by_cases h : keyOf x = k <;> simp [h]

theorem sorted_normalizeMessagesArray (now : Nat) (fresh : Nat → String)
    (arr : List (Option MsgObj)) :
    List.Sorted leKey (normalizeMessagesArray now fresh arr) :=
  List.sorted_insertionSort leKey (normMap now fresh 0 arr)

theorem perm_normalizeMessagesArray (now : Nat) (fresh : Nat → String)
    (arr : List (Option MsgObj)) :
    List.Perm (normalizeMessagesArray now fresh arr) (normMap now fresh 0 arr) :=
  List.perm_insertionSort leKey (normMap now fresh 0 arr)

/-- Inserting an element after all elements of equal key: where a stable sort
places a newly appended element into an already sorted list. -/
def insertAfterTies (a : MsgObj) : List MsgObj → List MsgObj
  | [] => [a]
  | b :: l => if keyOf a < keyOf b then a :: b :: l else b :: insertAfterTies a l

theorem mem_insertAfterTies {x a : MsgObj} :
    ∀ {l : List MsgObj}, x ∈ insertAfterTies a l ↔ x = a ∨ x ∈ l
  | [] => by simp [insertAfterTies]
  | b :: t => by
    by_cases h : keyOf a < keyOf b
    · simp [insertAfterTies, h]
    · simp only [insertAfterTies, if_neg h, List.mem_cons,
        mem_insertAfterTies (l := t)]
      tauto

theorem orderedInsert_of_min {y : MsgObj} :
    ∀ {l : List MsgObj}, (∀ z ∈ l, leKey y z) → List.orderedInsert leKey y l = y :: l
  | [], _ => rfl
  | b :: t, h => by
    simp only [List.orderedInsert]
    rw [if_pos (h b (by simp))]

theorem insertAfterTies_of_lt {a : MsgObj} :
    ∀ {l : List MsgObj}, (∀ z ∈ l, keyOf a < keyOf z) → insertAfterTies a l = a :: l
  | [], _ => rfl
  | b :: t, h => by
    simp only [insertAfterTies]
    rw [if_pos (h b (by simp))]

theorem orderedInsert_insertAfterTies (y a : MsgObj) :
    ∀ (l : List MsgObj), (∀ z ∈ l, leKey y z) →
      List.orderedInsert leKey y (insertAfterTies a l) = insertAfterTies a (y :: l) := by
  intro l hmin
  by_cases hay : keyOf a < keyOf y
  · have h1 : insertAfterTies a l = a :: l :=
      insertAfterTies_of_lt fun z hz => Nat.lt_of_lt_of_le hay (hmin z hz)
    have h2 : insertAfterTies a (y :: l) = a :: y :: l := by
      simp only [insertAfterTies]
      rw [if_pos hay]
    rw [h1, h2]
    have h3 : ¬ leKey y a := by
      unfold leKey
      omega
    simp only [List.orderedInsert]
    rw [if_neg h3, orderedInsert_of_min hmin]
  · have h2 : insertAfterTies a (y :: l) = y :: insertAfterTies a l := by
      simp only [insertAfterTies]
      rw [if_neg hay]
    rw [h2]
    refine orderedInsert_of_min fun z hz => ?_
    rcases mem_insertAfterTies.mp hz with h | h
    · subst h
      unfold leKey
      omega
    · exact hmin z h

/-- Appending one element to a sorted list and re-running the stable sort
inserts it after all elements of equal key. -/
theorem insertionSort_append_singleton (a : MsgObj) :
    ∀ (l : List MsgObj), List.Sorted leKey l →
      List.insertionSort leKey (l ++ [a]) = insertAfterTies a l
  | [], _ => by simp [List.insertionSort, insertAfterTies, List.orderedInsert]
  | y :: t, h => by
    have ht : List.Sorted leKey t := (List.sorted_cons.mp h).2
    have hmin : ∀ z ∈ t, leKey y z := (List.sorted_cons.mp h).1
    simp only [List.cons_append, List.insertionSort, List.append_eq]
    rw [insertionSort_append_singleton a t ht]
    exact orderedInsert_insertAfterTies y a t hmin

theorem sublist_pair_insertAfterTies {s a : MsgObj} (hk : keyOf s ≤ keyOf a) :
    ∀ {l : List MsgObj}, List.Sorted leKey l → s ∈ l →
      [s, a].Sublist (insertAfterTies a l)
  | [], _, hmem => absurd hmem (List.not_mem_nil s)
  | b :: t, hsort, hmem => by
    have hmin : ∀ z ∈ t, leKey b z := (List.sorted_cons.mp hsort).1
    by_cases hab : keyOf a < keyOf b
    · exfalso
      rcases List.mem_cons.mp hmem with h | h
      · subst h
        exact absurd hk (by omega)
      · have := hmin s h
        unfold leKey at this
        omega
    · have step : insertAfterTies a (b :: t) = b :: insertAfterTies a t := by
        simp only [insertAfterTies]
        rw [if_neg hab]
      rw [step]
      rcases List.mem_cons.mp hmem with h | h
      · subst h
        refine List.Sublist.cons₂ s ?_
        exact List.singleton_sublist.mpr (mem_insertAfterTies.mpr (Or.inl rfl))
      · exact List.Sublist.cons b
          (sublist_pair_insertAfterTies hk (List.sorted_cons.mp hsort).2 h)

/-- C1: Batch normalization yields exactly one canonical message per
non-malformed (present) input record, the output is sorted ascending by
timestamp, and the sort is stable: records with equal timestamps keep their
relative input order (classical filter characterization of stability, stated
against the order-preserving pre-sort pass `normMap`). -/
theorem normalizeMessagesArray_one_each_sorted_stable (now : Nat)
    (fresh : Nat → String) (arr : List (Option MsgObj)) :
    (normalizeMessagesArray now fresh arr).length = arr.countP Option.isSome ∧
    List.Sorted leKey (normalizeMessagesArray now fresh arr) ∧
    List.Perm (normalizeMessagesArray now fresh arr) (normMap now fresh 0 arr) ∧
    ∀ k : Nat,
      (normalizeMessagesArray now fresh arr).filter (fun m => keyOf m == k) =
        (normMap now fresh 0 arr).filter (fun m => keyOf m == k) := by
  refine ⟨?_, sorted_normalizeMessagesArray now fresh arr,
    perm_normalizeMessagesArray now fresh arr, fun k => filter_key_insertionSort k _⟩
  rw [(perm_normalizeMessagesArray now fresh arr).length_eq,
    normMap_length now fresh 0 arr]

/-- C7 counterexample: a record with missing text is not excluded by the
normalizer — `normalizeMessage` yields a canonical message for it, refuting
the claim that malformed (empty/missing-text) entries produce no output. -/
theorem normalizeMessage_missing_text_kept :
    normalizeMessage 0 "r" (some { text := none, senderType := some "user" }) ≠ none := by
  decide

/-- C7 amended: the normalizer never throws (it is a total function); an
absent (null/undefined) input yields no output; every present record — with
or without text — yields exactly one canonical message. -/
theorem normalizeMessage_none_only_for_absent (now : Nat) (rand : String) :
    normalizeMessage now rand none = none ∧
    ∀ m : MsgObj, (normalizeMessage now rand (some m)).isSome = true :=
  ⟨rfl, fun _ => rfl⟩

/-! ### The provider state and localStorage model -/

/-- A `{id, name, email}` known-user entry. -/
structure KnownUser where
  id : String
  name : String
  email : String
deriving Repr, DecidableEq

/-- The authenticated user from the auth context. -/
structure AuthUser where
  id : String
  isAdmin : Bool
  name : String
  email : String
  /-- a messages array attached to the profile payload, when present -/
  messages : Option (List MsgObj) := none
deriving Repr, DecidableEq

/-- The `MessageProvider` state: the two React state cells plus the browser's
local storage (message arrays keyed by full key string, and the
`autocare_message_users` entry). -/
structure ProviderState where
  conversations : List (String × List MsgObj) := []
  usersWithMessages : List KnownUser := []
  localStore : List (String × List MsgObj) := []
  storedUsers : List KnownUser := []
deriving Repr, DecidableEq

/-- JS object update `{...m, [k]: v}`: replace in place when the key exists,
append otherwise. -/
def setKey {α : Type} (m : List (String × α)) (k : String) (v : α) :
    List (String × α) :=
  if m.any (fun p => p.1 == k) then
    m.map fun p => if p.1 = k then (k, v) else p
  else m ++ [(k, v)]

theorem lookup_map_replace {α : Type} (k : String) (v : α) :
    ∀ m : List (String × α),
      List.lookup k (m.map fun p => if p.1 = k then (k, v) else p) =
        if m.any (fun p => p.1 == k) then some v else List.lookup k m
  | [] => rfl
  | (pk, pv) :: t => by
    by_cases hp : pk = k
    · subst hp
      simp [List.lookup_cons]
    · have hp2 : (pk == k) = false := beq_eq_false_iff_ne.mpr hp
      have hk2 : (k == pk) = false := beq_eq_false_iff_ne.mpr (Ne.symm hp)
      rw [List.map_cons, if_neg hp]
      simp only [List.lookup_cons, hk2, List.any_cons, hp2, Bool.false_or]
      exact lookup_map_replace k v t

theorem lookup_append_self {α : Type} (k : String) (v : α) :
    ∀ m : List (String × α), (m.any (fun p => p.1 == k)) = false →
      List.lookup k (m ++ [(k, v)]) = some v
  | [], _ => by simp [List.lookup_cons]
  | (pk, pv) :: t, h => by
    simp only [List.any_cons, Bool.or_eq_false_iff] at h
    have hk2 : (k == pk) = false :=
      beq_eq_false_iff_ne.mpr (Ne.symm (beq_eq_false_iff_ne.mp h.1))
    simp only [List.cons_append, List.lookup_cons, hk2]
    exact lookup_append_self k v t h.2

theorem lookup_setKey_self {α : Type} (m : List (String × α)) (k : String) (v : α) :
    List.lookup k (setKey m k v) = some v := by
  unfold setKey
  by_cases h : m.any (fun p => p.1 == k)
  · rw [if_pos h, lookup_map_replace, if_pos h]
  · have hf : (m.any fun p => p.1 == k) = false := by
      simp only [Bool.not_eq_true] at h
      exact h
    rw [if_neg h]
    exact lookup_append_self k v m hf

theorem lookup_map_replace_ne {α : Type} (k kq : String) (v : α) (h : kq ≠ k) :
    ∀ m : List (String × α),
      List.lookup kq (m.map fun p => if p.1 = k then (k, v) else p) =
        List.lookup kq m
  | [] => rfl
  | (pk, pv) :: t => by
    by_cases hp : pk = k
    · have hq : (kq == k) = false := beq_eq_false_iff_ne.mpr h
      have hq2 : (kq == pk) = false := beq_eq_false_iff_ne.mpr (hp ▸ h)
      rw [List.map_cons, if_pos hp]
      simp only [List.lookup_cons, hq, hq2]
      exact lookup_map_replace_ne k kq v h t
    · rw [List.map_cons, if_neg hp]
      cases hqp : kq == pk <;>
        simp [List.lookup_cons, hqp, lookup_map_replace_ne k kq v h t]

theorem lookup_setKey_ne {α : Type} (m : List (String × α)) (k kq : String) (v : α)
    (h : kq ≠ k) : List.lookup kq (setKey m k v) = List.lookup kq m := by
  have hqk : (kq == k) = false := beq_eq_false_iff_ne.mpr h
  unfold setKey
  by_cases hany : m.any (fun p => p.1 == k)
  · rw [if_pos hany]
    exact lookup_map_replace_ne k kq v h m
  · rw [if_neg hany]
    induction m with
    | nil => simp [List.lookup_cons, hqk]
    | cons p t ih =>
      obtain ⟨pk, pv⟩ := p
      have hany2 : ¬ (t.any fun p => p.1 == k) = true := by
        intro hx
        exact hany (by simp [List.any_cons, hx])
      cases hqp : kq == pk <;>
        simp [List.cons_append, List.lookup_cons, hqp, ih hany2]

/-- The key `` `autocare_messages_${conversationId}` ``. -/
def msgsKey (conversationId : String) : String :=
  "autocare_messages_" ++ conversationId

/-- `saveMessageLocally`: append the record to the parsed array stored under
the conversation's key. -/
def saveMessageLocally (message : MsgObj) (conversationId : String)
    (store : List (String × List MsgObj)) : List (String × List MsgObj) :=
  setKey store (msgsKey conversationId)
    (((List.lookup (msgsKey conversationId) store).getD []) ++ [message])

/-- `saveUserToMessageList`: add the user to the stored known-user list if no
entry with the same id exists. -/
def saveUserToMessageList (u : AuthUser) (stored : List KnownUser) : List KnownUser :=
  if stored.any (fun x => x.id == u.id) then stored
  else stored ++ [{ id := u.id, name := u.name, email := u.email }]

/-- `getLocalConversations`: collect every `autocare_messages_*` entry,
keying the result by the suffix after the key prefix (`key.startsWith(...)` /
`key.replace(...)` are modelled character-wise so they reduce by
computation). -/
def getLocalConversations (store : List (String × List MsgObj)) :
    List (String × List MsgObj) :=
  store.filterMap fun p =>
    if "autocare_messages_".data.isPrefixOf p.1.data then
      some ((p.1.data.drop "autocare_messages_".data.length).asString, p.2)
    else none

/-! ### Real-time event handler -/

/-- A `message-received` push-event payload.  `asMsg` is the payload object
itself viewed through its message-shaped fields (for `data.message || data`). -/
structure MsgEvent where
  senderId : Option String := none
  sender : Option Ref := none
  senderName : Option String := none
  message : Option MsgObj := none
  asMsg : MsgObj := {}
deriving Repr, DecidableEq

/-- `data.senderId || (data.sender && data.sender._id)`, with the subsequent
`if (!senderId) return` guard folded in as truthiness. -/
def resolvedSender (d : MsgEvent) : Option String :=
  truthyStr (jsOrStr d.senderId (d.sender.map Ref.rid))

/-- The socket `message-received` handler: admin-only; normalize the incoming
payload, re-normalize the sender's conversation with it appended, and add the
sender to the known-user list at the front if unseen. -/
def handleMessageReceived (now : Nat) (fresh : Nat → String) (user : Option AuthUser)
    (d : MsgEvent) (st : ProviderState) : ProviderState :=
  match user with
  | none => st
  | some u =>
    if u.isAdmin then
      match resolvedSender d with
      | none => st
      | some senderId =>
        let prevMessages := (List.lookup senderId st.conversations).getD []
        let incoming := normalizeMsg1 now (fresh 0) (d.message.getD d.asMsg)
        let convs := setKey st.conversations senderId
          (normalizeMessagesArray now fresh ((prevMessages ++ [incoming]).map some))
        let users :=
          if st.usersWithMessages.any (fun x => x.id == senderId) then
            st.usersWithMessages
          else
            { id := senderId,
              name := (truthyStr (jsOrStr d.senderName (d.sender.bind Ref.name))).getD "User",
              email := (truthyStr (d.sender.bind Ref.email)).getD "" } :: st.usersWithMessages
        { st with conversations := convs, usersWithMessages := users }
    else st

/-! ### Sending messages -/

/-- What `apiService.sendMessage` came back with: a `success:true` response
(`data`, and optionally `autoReply`), or a failure — a network throw and a
`success:false` response land in the same `catch` (the code re-throws on
`success:false`). -/
inductive SendOutcome where
  | ok (data : MsgObj) (autoReply : Option MsgObj)
  | fail
deriving Repr, DecidableEq

/-- The locally synthesized fallback record built in the `catch` branch:
`{id: Date.now(), senderType, text, createdAt: now, pending: true}` (the
numeric `Date.now()` id is embedded as its decimal string). -/
def pendingLocalMsg (now : Nat) (role text : String) : MsgObj :=
  { id := some (toString now), senderType := some role, text := some text,
    createdAt := some now, pending := true }

/-- The conversation a successful send lands in:
`user.isAdmin ? (sentMessage.recipient?._id || sentMessage.recipient) :
user.id` — an absent recipient coerces to the JS object key `"undefined"`. -/
def successConvId (u : AuthUser) (sentMessage : MsgObj) : String :=
  if u.isAdmin then (sentMessage.recipient.map Ref.rid).getD "undefined" else u.id

/-- `sendMessage(text)`: on success append the normalized confirmed message
(and the auto-reply, if any) to the conversation and mirror both to local
storage; on failure append a locally synthesized pending record instead.  The
error is only logged: both paths return a state, nothing escapes. -/
def sendMessage (now : Nat) (fresh : Nat → String) (user : Option AuthUser)
    (outcome : SendOutcome) (text : String) (st : ProviderState) : ProviderState :=
  match user with
  | none => st
  | some u =>
    match outcome with
    | .ok data autoReply =>
      let sentMessage := normalizeMsg1 now (fresh 0) data
      let conversationId := successConvId u sentMessage
      let currentMessages := (List.lookup conversationId st.conversations).getD []
      let updatedMessages :=
        normalizeMessagesArray now fresh ((currentMessages ++ [sentMessage]).map some)
      let store1 := saveMessageLocally sentMessage conversationId st.localStore
      let stAfter :=
        match autoReply with
        | some ar =>
          let messagesWithReply := normalizeMessagesArray now fresh
            ((updatedMessages ++ [normalizeMsg1 now (fresh 0) ar]).map some)
          { st with
            conversations := setKey st.conversations conversationId messagesWithReply,
            localStore := saveMessageLocally ar conversationId store1 }
        | none =>
          { st with
            conversations := setKey st.conversations conversationId updatedMessages,
            localStore := store1 }
      if u.isAdmin then stAfter
      else { stAfter with storedUsers := saveUserToMessageList u stAfter.storedUsers }
    | .fail =>
      let newMessage := pendingLocalMsg now (if u.isAdmin then "admin" else "user") text
      let conversationId := u.id
      let currentMessages := (List.lookup conversationId st.conversations).getD []
      let updatedMessages :=
        normalizeMessagesArray now fresh ((currentMessages ++ [newMessage]).map some)
      let st1 :=
        { st with
          conversations := setKey st.conversations conversationId updatedMessages,
          localStore := saveMessageLocally newMessage conversationId st.localStore }
      if u.isAdmin then st1
      else { st1 with storedUsers := saveUserToMessageList u st1.storedUsers }

/-- `sendMessageToUser(userId, text)`: admin-only variant with an explicit
target; guard clause returns unchanged for missing or non-admin users. -/
def sendMessageToUser (now : Nat) (fresh : Nat → String) (user : Option AuthUser)
    (outcome : SendOutcome) (userId : String) (text : String)
    (st : ProviderState) : ProviderState :=
  match user with
  | none => st
  | some u =>
    if !u.isAdmin then st
    else
      match outcome with
      | .ok data _ =>
        let sentMessage := normalizeMsg1 now (fresh 0) data
        let userMessages := (List.lookup userId st.conversations).getD []
        let updatedMessages :=
          normalizeMessagesArray now fresh ((userMessages ++ [sentMessage]).map some)
        { st with
          conversations := setKey st.conversations userId updatedMessages,
          localStore := saveMessageLocally sentMessage userId st.localStore }
      | .fail =>
        let newMessage := pendingLocalMsg now "admin" text
        let userMessages := (List.lookup userId st.conversations).getD []
        let updatedMessages :=
          normalizeMessagesArray now fresh ((userMessages ++ [newMessage]).map some)
        { st with
          conversations := setKey st.conversations userId updatedMessages,
          localStore := saveMessageLocally newMessage userId st.localStore }

/-! ### Initial load (`loadMessages`) -/

/-- Result of one `apiService.getMessagesForConversation` / `getMessages`
call: the promise rejected, or resolved with a `{success, data}` payload. -/
inductive ConvFetch where
  | threw
  | resp (success : Bool) (data : List MsgObj)
deriving Repr, DecidableEq

/-- The network environment one `loadMessages` run observes. -/
structure LoadEnv where
  /-- `getAdminAllMessages`: `none` = threw; otherwise `(success, data.messages || [])`. -/
  adminAll : Option (Bool × List MsgObj)
  /-- `getMessagesForConversation(uid)`, per discovered user id. -/
  perUser : String → ConvFetch
  /-- `getMessages()` for a non-admin session: `none` = threw. -/
  getMsgs : Option (Bool × List MsgObj)

/-- The conversation key of one admin-visible message:
`m.conversation || (senderType === 'user' ? sender-id : recipient-id)`,
then the `if (!convId) return` truthiness guard. -/
def convIdOf (m : MsgObj) : Option String :=
  truthyStr (jsOrStr m.conversation
    (if m.senderType == some "user" then m.sender.map Ref.rid else m.recipient.map Ref.rid))

/-- The known-user entry derived from one admin-visible message. -/
def userEntryOf (m : MsgObj) (cid : String) : KnownUser :=
  { id := cid
    name := (truthyStr (if m.senderType == some "user" then m.sender.bind Ref.name
      else m.recipient.bind Ref.name)).getD "User"
    email := (truthyStr (if m.senderType == some "user" then m.sender.bind Ref.email
      else m.recipient.bind Ref.email)).getD "" }

/-- `byUser[convId].push(m)` with creation on first use (JS object key order:
first insertion wins, pushes append). -/
def pushGroup (g : List (String × List MsgObj)) (cid : String) (m : MsgObj) :
    List (String × List MsgObj) :=
  if g.any (fun p => p.1 == cid) then
    g.map fun p => if p.1 = cid then (p.1, p.2 ++ [m]) else p
  else g ++ [(cid, [m])]

/-- One step of the grouping pass over `adminResp.data.messages`. -/
def adminGroupStep (acc : List (String × List MsgObj) × List (String × KnownUser))
    (m : MsgObj) : List (String × List MsgObj) × List (String × KnownUser) :=
  match convIdOf m with
  | none => acc
  | some cid => (pushGroup acc.1 cid m, setKey acc.2 cid (userEntryOf m cid))

/-- The grouping pass: provisional per-user message groups plus the
`users` map (a JS `Map`, insertion-ordered, last `set` wins per key). -/
def adminGroup (msgs : List MsgObj) :
    List (String × List MsgObj) × List (String × KnownUser) :=
  msgs.foldl adminGroupStep ([], [])

/-- The per-user completeness fetch: the authoritative conversation when the
fetch resolves with `success:true`, else the normalized provisional group
(both the `success:false` branch and the `catch` keep the provisional data). -/
def convFor (now : Nat) (fresh : Nat → String) (env : LoadEnv) (uid : String)
    (provisional : List MsgObj) : List MsgObj :=
  match env.perUser uid with
  | .threw => normalizeMessagesArray now fresh (provisional.map some)
  | .resp true data => normalizeMessagesArray now fresh (data.map some)
  | .resp false _ => normalizeMessagesArray now fresh (provisional.map some)

/-- The non-admin fetch path of `loadMessages` (profile messages absent or
empty): `getMessages()`, with `success:false` falling back to the stored
conversation and a throw falling back to profile messages or the stored
conversation (all three normalize what they install). -/
def loadNonAdminFetch (now : Nat) (fresh : Nat → String) (u : AuthUser)
    (env : LoadEnv) (st : ProviderState) : ProviderState :=
  match env.getMsgs with
  | some (true, data) =>
    { st with conversations :=
        [(u.id, normalizeMessagesArray now fresh (data.map some))] }
  | some (false, _) =>
    { st with conversations :=
        [(u.id, normalizeMessagesArray now fresh
          (((List.lookup (msgsKey u.id) st.localStore).getD []).map some))] }
  | none =>
    match u.messages with
    | some ms =>
      { st with conversations :=
          [(u.id, normalizeMessagesArray now fresh (ms.map some))] }
    | none =>
      { st with conversations :=
          [(u.id, normalizeMessagesArray now fresh
            (((List.lookup (msgsKey u.id) st.localStore).getD []).map some))] }

/-- `loadMessages`: admin sessions group the all-messages summary, then
replace each group by its per-user fetch where that succeeds; on summary
failure or throw the raw locally persisted arrays are installed as-is.
Non-admin sessions normalize the profile payload or the fetched/stored
conversation. -/
def loadMessages (now : Nat) (fresh : Nat → String) (user : Option AuthUser)
    (env : LoadEnv) (st : ProviderState) : ProviderState :=
  match user with
  | none => st
  | some u =>
    if u.isAdmin then
      match env.adminAll with
      | some (true, msgs) =>
        let g := adminGroup msgs
        { st with
          conversations := g.1.map fun p => (p.1, convFor now fresh env p.1 p.2),
          usersWithMessages := g.2.map Prod.snd }
      | some (false, _) =>
        { st with conversations := getLocalConversations st.localStore,
                  usersWithMessages := st.storedUsers }
      | none =>
        { st with conversations := getLocalConversations st.localStore,
                  usersWithMessages := st.storedUsers }
    else
      match u.messages with
      | some ms =>
        if ms.length > 0 then
          { st with conversations :=
              [(u.id, normalizeMessagesArray now fresh (ms.map some))] }
        else loadNonAdminFetch now fresh u env st
      | none => loadNonAdminFetch now fresh u env st

/-! ### The summary-based variant of the context (`V2`)

The repository also carries a variant of the same `MessageProvider` whose
admin load fetches conversation summaries, derives the user list from each
summary's `lastMessage`, and then fetches at most the first 20 conversations
with `Promise.allSettled`, keeping an entry only for fulfilled successful
fetches. -/

namespace V2

/-- One conversation summary `{_id, lastMessage}`. -/
structure Summary where
  cid : String
  lastMessage : Option MsgObj := none
deriving Repr, DecidableEq

/-- The known-user entry derived from a summary (`c.lastMessage || {}`). -/
def summaryUser (c : Summary) : KnownUser :=
  let last := c.lastMessage.getD {}
  { id := c.cid
    name := (truthyStr (if last.senderType == some "user" then last.sender.bind Ref.name
      else last.recipient.bind Ref.name)).getD "User"
    email := (truthyStr (if last.senderType == some "user" then last.sender.bind Ref.email
      else last.recipient.bind Ref.email)).getD "" }

/-- The inline per-message mapping of this variant:
`{id: _id || id, _id: same, text, senderType: senderType || (sender === 'admin'
|| sender === 'user' ? sender : undefined), sender: same, timestamp:
createdAt || timestamp}`. -/
def v2norm (m : MsgObj) : MsgObj :=
  let nid := jsOrStr m.mid m.id
  let stype := jsOrStr m.senderType
    (match m.sender with
     | some r => if r.plain && (r.rid == "admin" || r.rid == "user") then some r.rid else none
     | none => none)
  { id := nid, mid := nid, text := m.text, senderType := stype,
    sender := stype.map fun s => { rid := s, plain := true },
    timestamp := jsOrDate m.createdAt m.timestamp }

/-- Did this settled fetch fulfill with `success:true`? -/
def fetchOk : ConvFetch → Bool
  | .resp true _ => true
  | _ => false

/-- The `data || []` of a settled fetch. -/
def fetchData : ConvFetch → List MsgObj
  | .resp _ d => d
  | .threw => []

/-- The conversation installed for a successfully fetched user: the mapped
messages reversed (the backend pages reverse-chronologically). -/
def fetchedConv (env : String → ConvFetch) (uid : String) : List MsgObj :=
  ((fetchData (env uid)).map v2norm).reverse

/-- The `results.forEach` pass building `convMap`: only fulfilled successful
fetches assign an entry. -/
def buildConvMap (env : String → ConvFetch) :
    List KnownUser → List (String × List MsgObj) → List (String × List MsgObj)
  | [], acc => acc
  | u :: rest, acc =>
    buildConvMap env rest
      (if fetchOk (env u.id) then setKey acc u.id (fetchedConv env u.id) else acc)

/-- The user list derived from the summaries. -/
def usersListOf (summaries : List Summary) : List KnownUser :=
  summaries.map summaryUser

/-- The admin conversations map this variant installs: per-conversation
fetches are issued for `usersList.slice(0, 20)` only. -/
def adminConvMap (summaries : List Summary) (env : String → ConvFetch) :
    List (String × List MsgObj) :=
  buildConvMap env ((usersListOf summaries).take 20) []

theorem lookup_buildConvMap (env : String → ConvFetch) (uid : String) :
    ∀ (l : List KnownUser) (acc : List (String × List MsgObj)),
      List.lookup uid (buildConvMap env l acc) =
        if (l.any fun x => x.id == uid) && fetchOk (env uid) then
          some (fetchedConv env uid)
        else List.lookup uid acc
  | [], acc => by simp [buildConvMap]
  | u :: rest, acc => by
    rw [buildConvMap, lookup_buildConvMap env uid rest]
    by_cases hok : fetchOk (env uid) = true
    · by_cases hu : u.id = uid
      · have hsetk : (if fetchOk (env u.id) = true then
            setKey acc u.id (fetchedConv env u.id) else acc) =
              setKey acc uid (fetchedConv env uid) := by
          rw [hu, if_pos hok]
        rw [hsetk, lookup_setKey_self, ite_self]
        have hcond : (((u :: rest).any fun x => x.id == uid) && fetchOk (env uid)) = true := by
          simp [List.any_cons, hu, hok]
        rw [if_pos hcond]
      · have hne : uid ≠ u.id := Ne.symm hu
        have hb : (u.id == uid) = false := beq_eq_false_iff_ne.mpr hu
        by_cases huok : fetchOk (env u.id) = true
        · rw [if_pos huok, lookup_setKey_ne _ _ _ _ hne]
          simp [List.any_cons, hb]
        · rw [if_neg huok]
          simp [List.any_cons, hb]
    · have hok2 : fetchOk (env uid) = false := by
        simp only [Bool.not_eq_true] at hok
        exact hok
      have hc1 : ¬ (((rest.any fun x => x.id == uid) && fetchOk (env uid)) = true) := by
        simp [hok2]
      have hc2 : ¬ ((((u :: rest).any fun x => x.id == uid) && fetchOk (env uid)) = true) := by
        simp [hok2]
      rw [if_neg hc1, if_neg hc2]
      by_cases huok : fetchOk (env u.id) = true
      · have hu : u.id ≠ uid := by
          intro e
          rw [e, hok2] at huok
          cases huok
        rw [if_pos huok, lookup_setKey_ne _ _ _ _ (Ne.symm hu)]
      · rw [if_neg huok]

end V2

/-! ### Support lemmas for the claim theorems -/

theorem toDigitsCore_length_le (b : Nat) :
    ∀ (fuel n : Nat) (ds : List Char), ds.length ≤ (Nat.toDigitsCore b fuel n ds).length
  | 0, _, _ => Nat.le_refl _
  | fuel + 1, n, ds => by
    unfold Nat.toDigitsCore
    by_cases h : n / b = 0
    · simp [h]
    · rw [if_neg h]
      calc ds.length ≤ (Nat.digitChar (n % b) :: ds).length := by simp
        _ ≤ _ := toDigitsCore_length_le b fuel (n / b) (Nat.digitChar (n % b) :: ds)

theorem toDigitsCore_length_succ (b fuel n : Nat) (ds : List Char) :
    ds.length + 1 ≤ (Nat.toDigitsCore b (fuel + 1) n ds).length := by
  unfold Nat.toDigitsCore
  by_cases h : n / b = 0
  · simp [h]
  · rw [if_neg h]
    calc ds.length + 1 = (Nat.digitChar (n % b) :: ds).length := by simp
      _ ≤ _ := toDigitsCore_length_le b fuel (n / b) (Nat.digitChar (n % b) :: ds)

theorem toString_nat_ne_empty (n : Nat) : toString n ≠ "" := by
  intro h
  have h2 : (Nat.toDigits 10 n).asString = "" := h
  have h3 : (Nat.toDigits 10 n).length = 0 := by
    have := congrArg String.length h2
    simpa [List.asString] using this
  unfold Nat.toDigits at h3
  have := toDigitsCore_length_succ 10 n n []
  omega

theorem normFixed_pendingLocalMsg (now : Nat) (role text : String) (hrole : role ≠ "") :
    NormFixed now (pendingLocalMsg now role text) := by
  intro r
  have hts : toString now ≠ "" := toString_nat_ne_empty now
  refine MsgObj.ext ?_ rfl rfl ?_ rfl rfl rfl rfl rfl rfl
  · show some ((truthyStr (jsOrStr (some (toString now)) none)).getD (genId now r)) =
      some (toString now)
    simp [jsOrStr, truthyStr, hts]
  · show jsOrStr (some role) none = some role
    simp [jsOrStr, truthyStr, hrole]

theorem normMap_append (now : Nat) (fresh : Nat → String) :
    ∀ (i : Nat) (a b : List (Option MsgObj)),
      normMap now fresh i (a ++ b) =
        normMap now fresh i a ++ normMap now fresh (i + a.length) b
  | _, [], _ => by simp [normMap]
  | i, some m :: t, b => by
    simp only [List.cons_append, normMap, List.append_eq, List.length_cons]
    rw [normMap_append now fresh (i + 1) t b]
    have he : i + 1 + t.length = i + (t.length + 1) := by omega
    rw [he]
  | i, none :: t, b => by
    simp only [List.cons_append, normMap, List.append_eq, List.length_cons]
    rw [normMap_append now fresh (i + 1) t b]
    have he : i + 1 + t.length = i + (t.length + 1) := by omega
    rw [he]

theorem mem_normArr_append_fixed (now : Nat) (fresh : Nat → String)
    (prev : List MsgObj) (x : MsgObj) (hx : NormFixed now x) :
    x ∈ normalizeMessagesArray now fresh ((prev ++ [x]).map some) := by
  rw [normalizeMessagesArray, List.mem_insertionSort, List.map_append,
    normMap_append now fresh 0]
  refine List.mem_append.mpr (Or.inr ?_)
  have hx2 : ∀ r, normalizeMsg1 now r x = x := hx
  simp [normMap, hx2]

theorem length_normArr_map_some (now : Nat) (fresh : Nat → String) (l : List MsgObj) :
    (normalizeMessagesArray now fresh (l.map some)).length = l.length := by
  rw [normalizeMessagesArray, List.length_insertionSort,
    normMap_map_some_length now fresh 0 l]

/-! ### Claim theorems -/

/-- C10: for a session with no authenticated user, or a non-admin user,
`sendMessageToUser` returns immediately: conversations, the known-user list
and local persistence are all unchanged (the whole state is). -/
theorem sendMessageToUser_guard_noop (now : Nat) (fresh : Nat → String)
    (user : Option AuthUser) (outcome : SendOutcome) (userId text : String)
    (st : ProviderState)
    (h : user = none ∨ ∃ u, user = some u ∧ u.isAdmin = false) :
    sendMessageToUser now fresh user outcome userId text st = st := by
  rcases h with h | ⟨u, hu, hadm⟩
  · rw [h]
    rfl
  · rw [hu]
    unfold sendMessageToUser
    simp [hadm]

/-- Witness for C10 at a concrete non-admin session. -/
theorem sendMessageToUser_guard_noop_witness :
    sendMessageToUser 7 (fun _ => "r")
      (some { id := "u1", isAdmin := false, name := "N", email := "e" })
      SendOutcome.fail "u2" "hello" {} = {} :=
  sendMessageToUser_guard_noop 7 (fun _ => "r") _ SendOutcome.fail "u2" "hello" {}
    (Or.inr ⟨_, rfl, rfl⟩)

/-- C2: for a non-admin session, a failed send (network throw or
`success:false`, which the code re-throws into the same `catch`) appends
exactly one message to the user's conversation; that message is the pending
record carrying the given text, and the very same record is appended to local
persistence under `autocare_messages_<u.id>`.  The operation is a total
function on states: the error is only logged, nothing propagates. -/
theorem sendMessage_failure_appends_pending (now : Nat) (fresh : Nat → String)
    (u : AuthUser) (text : String) (st : ProviderState)
    (hadm : u.isAdmin = false) :
    ((List.lookup u.id
        (sendMessage now fresh (some u) SendOutcome.fail text st).conversations).getD []).length
      = ((List.lookup u.id st.conversations).getD []).length + 1 ∧
    pendingLocalMsg now "user" text ∈
      (List.lookup u.id
        (sendMessage now fresh (some u) SendOutcome.fail text st).conversations).getD [] ∧
    (pendingLocalMsg now "user" text).pending = true ∧
    (pendingLocalMsg now "user" text).text = some text ∧
    (List.lookup (msgsKey u.id)
        (sendMessage now fresh (some u) SendOutcome.fail text st).localStore).getD []
      = (List.lookup (msgsKey u.id) st.localStore).getD []
          ++ [pendingLocalMsg now "user" text] := by
  have hconv : (sendMessage now fresh (some u) SendOutcome.fail text st).conversations =
      setKey st.conversations u.id (normalizeMessagesArray now fresh
        ((((List.lookup u.id st.conversations).getD [])
          ++ [pendingLocalMsg now "user" text]).map some)) := by
    simp [sendMessage, hadm]
  have hstore : (sendMessage now fresh (some u) SendOutcome.fail text st).localStore =
      saveMessageLocally (pendingLocalMsg now "user" text) u.id st.localStore := by
    simp [sendMessage, hadm]
  refine ⟨?_, ?_, rfl, rfl, ?_⟩
  · rw [hconv, lookup_setKey_self, Option.getD_some,
      length_normArr_map_some, List.length_append, List.length_singleton]
  · rw [hconv, lookup_setKey_self, Option.getD_some]
    exact mem_normArr_append_fixed now fresh _ _
      (normFixed_pendingLocalMsg now "user" text (by decide))
  · rw [hstore, saveMessageLocally, lookup_setKey_self, Option.getD_some]

/-- Witness for C2 at a concrete non-admin session and state. -/
theorem sendMessage_failure_appends_pending_witness :
    ((List.lookup "u1"
        (sendMessage 9 (fun _ => "r")
          (some { id := "u1", isAdmin := false, name := "N", email := "e" })
          SendOutcome.fail "hi" {}).conversations).getD []).length
      = ((List.lookup "u1" ({} : ProviderState).conversations).getD []).length + 1 ∧
    pendingLocalMsg 9 "user" "hi" ∈
      (List.lookup "u1"
        (sendMessage 9 (fun _ => "r")
          (some { id := "u1", isAdmin := false, name := "N", email := "e" })
          SendOutcome.fail "hi" {}).conversations).getD [] ∧
    (pendingLocalMsg 9 "user" "hi").pending = true ∧
    (pendingLocalMsg 9 "user" "hi").text = some "hi" ∧
    (List.lookup (msgsKey "u1")
        (sendMessage 9 (fun _ => "r")
          (some { id := "u1", isAdmin := false, name := "N", email := "e" })
          SendOutcome.fail "hi" {}).localStore).getD []
      = (List.lookup (msgsKey "u1") ({} : ProviderState).localStore).getD []
          ++ [pendingLocalMsg 9 "user" "hi"] :=
  sendMessage_failure_appends_pending 9 (fun _ => "r")
    { id := "u1", isAdmin := false, name := "N", email := "e" } "hi" {} rfl

/-- C6: for an admin session, two `message-received` events resolving to the
same previously-unseen sender add exactly one known-user entry — the first
event puts it at the front, before all pre-existing entries, and the second
event leaves the list unchanged. -/
theorem handleMessageReceived_known_user_once_front
    (now1 now2 : Nat) (fresh1 fresh2 : Nat → String) (u : AuthUser)
    (d1 d2 : MsgEvent) (st : ProviderState) (sid : String)
    (hadm : u.isAdmin = true)
    (h1 : resolvedSender d1 = some sid)
    (h2 : resolvedSender d2 = some sid)
    (hnew : (st.usersWithMessages.any fun x => x.id == sid) = false) :
    ((handleMessageReceived now1 fresh1 (some u) d1 st).usersWithMessages.head?.map
        KnownUser.id = some sid) ∧
    (handleMessageReceived now1 fresh1 (some u) d1 st).usersWithMessages.tail
      = st.usersWithMessages ∧
    (handleMessageReceived now2 fresh2 (some u) d2
        (handleMessageReceived now1 fresh1 (some u) d1 st)).usersWithMessages
      = (handleMessageReceived now1 fresh1 (some u) d1 st).usersWithMessages := by
  have hstep1 : (handleMessageReceived now1 fresh1 (some u) d1 st).usersWithMessages =
      { id := sid,
        name := (truthyStr (jsOrStr d1.senderName (d1.sender.bind Ref.name))).getD "User",
        email := (truthyStr (d1.sender.bind Ref.email)).getD "" } :: st.usersWithMessages := by
    simp [handleMessageReceived, hadm, h1, hnew]
  refine ⟨?_, ?_, ?_⟩
  · rw [hstep1]
    rfl
  · rw [hstep1]
    rfl
  · set st1 := handleMessageReceived now1 fresh1 (some u) d1 st with hst1
    have hex : ∃ x ∈ st1.usersWithMessages, x.id = sid := by
      rw [hstep1]
      exact ⟨_, List.mem_cons_self _ _, rfl⟩
    simp [handleMessageReceived, hadm, h2, hex]

/-- Witness for C6 at a concrete admin session, unseen sender and state. -/
theorem handleMessageReceived_known_user_once_front_witness :
    ((handleMessageReceived 1 (fun _ => "a")
        (some { id := "ad", isAdmin := true, name := "A", email := "a" })
        { senderId := some "u9", senderName := some "Nina" }
        {}).usersWithMessages.head?.map KnownUser.id = some "u9") ∧
    (handleMessageReceived 1 (fun _ => "a")
        (some { id := "ad", isAdmin := true, name := "A", email := "a" })
        { senderId := some "u9", senderName := some "Nina" }
        {}).usersWithMessages.tail = ({} : ProviderState).usersWithMessages ∧
    (handleMessageReceived 2 (fun _ => "b")
        (some { id := "ad", isAdmin := true, name := "A", email := "a" })
        { senderId := some "u9", senderName := some "Nina" }
        (handleMessageReceived 1 (fun _ => "a")
          (some { id := "ad", isAdmin := true, name := "A", email := "a" })
          { senderId := some "u9", senderName := some "Nina" }
          {})).usersWithMessages
      = (handleMessageReceived 1 (fun _ => "a")
          (some { id := "ad", isAdmin := true, name := "A", email := "a" })
          { senderId := some "u9", senderName := some "Nina" }
          {}).usersWithMessages :=
  handleMessageReceived_known_user_once_front 1 2 (fun _ => "a") (fun _ => "b")
    { id := "ad", isAdmin := true, name := "A", email := "a" }
    { senderId := some "u9", senderName := some "Nina" }
    { senderId := some "u9", senderName := some "Nina" }
    {} "u9" rfl (by decide) (by decide) rfl

/-- A concrete admin session used by counterexamples and witnesses. -/
def adminU : AuthUser :=
  { id := "a1", isAdmin := true, name := "A", email := "a" }

/-- A redelivered payload whose identifier `m1` already occurs below. -/
def dupIncoming : MsgObj :=
  { mid := some "m1", text := some "dup", senderType := some "user", createdAt := some 2 }

/-- The `message-received` event carrying `dupIncoming`. -/
def dupEvent : MsgEvent :=
  { senderId := some "u1", message := some dupIncoming }

/-- A state whose `u1` conversation already holds a record with id `m1`. -/
def dupState : ProviderState :=
  { conversations :=
      [("u1", [{ id := some "m1", text := some "old", senderType := some "user", createdAt := some 1 }])] }

/-- C4 counterexample: redelivering a record whose identifier already occurs
in the conversation does not replace the old record — after the handler runs,
the conversation holds two records with identifier `m1`, refuting
identifier uniqueness and last-write-wins. -/
theorem duplicate_id_kept_counterexample :
    (((List.lookup "u1"
        (handleMessageReceived 5 (fun _ => "r") (some adminU)
          dupEvent dupState).conversations).getD []).map MsgObj.id)
      = [some "m1", some "m1"] := by
  decide

/-- C4 amended: duplicate identifiers are not deduplicated.  Handling a
`message-received` event appends the normalized incoming record to the
sender's conversation unconditionally — even when its identifier already
occurs — so the conversation is a permutation of the incoming record consed
onto the previous list (both records are kept; nothing is replaced). -/
theorem handleMessageReceived_keeps_duplicates (now : Nat) (fresh : Nat → String)
    (u : AuthUser) (d : MsgEvent) (st : ProviderState) (sid : String)
    (hadm : u.isAdmin = true) (hs : resolvedSender d = some sid)
    (hfix : ∀ x ∈ (List.lookup sid st.conversations).getD [], NormFixed now x) :
    List.Perm
      ((List.lookup sid
        (handleMessageReceived now fresh (some u) d st).conversations).getD [])
      (normalizeMsg1 now (fresh 0) (d.message.getD d.asMsg)
        :: (List.lookup sid st.conversations).getD []) := by
  have hconv : (handleMessageReceived now fresh (some u) d st).conversations =
      setKey st.conversations sid (normalizeMessagesArray now fresh
        ((((List.lookup sid st.conversations).getD [])
          ++ [normalizeMsg1 now (fresh 0) (d.message.getD d.asMsg)]).map some)) := by
    simp [handleMessageReceived, hadm, hs]
  rw [hconv, lookup_setKey_self, Option.getD_some]
  have hall : ∀ x ∈ ((List.lookup sid st.conversations).getD [])
      ++ [normalizeMsg1 now (fresh 0) (d.message.getD d.asMsg)], NormFixed now x := by
    intro x hx
    rcases List.mem_append.mp hx with hx | hx
    · exact hfix x hx
    · rcases List.mem_singleton.mp hx with rfl
      exact normFixed_normalizeMsg1 now (fresh 0) _
  refine (perm_normalizeMessagesArray now fresh _).trans ?_
  rw [normMap_map_some_of_fixed now fresh 0 _ hall]
  exact List.perm_append_singleton _ _

/-- Witness for the amended C4 at a concrete event and empty conversation. -/
theorem handleMessageReceived_keeps_duplicates_witness :
    List.Perm
      ((List.lookup "u1"
        (handleMessageReceived 5 (fun _ => "r") (some adminU)
          dupEvent {}).conversations).getD [])
      [normalizeMsg1 5 "r" dupIncoming] :=
  handleMessageReceived_keeps_duplicates 5 (fun _ => "r") adminU dupEvent
    {} "u1" rfl (by decide) (fun x hx => absurd hx (List.not_mem_nil x))

theorem lookup_map_value {α β : Type} (f : String → α → β) :
    ∀ (l : List (String × α)) (k : String),
      List.lookup k (l.map fun p => (p.1, f p.1 p.2)) = (List.lookup k l).map (f k)
  | [], _ => rfl
  | (pk, pv) :: t, k => by
    by_cases h : k = pk
    · subst h
      simp [List.lookup_cons]
    · have hb : (k == pk) = false := beq_eq_false_iff_ne.mpr h
      simp [List.lookup_cons, hb, lookup_map_value f t k]

theorem lookup_isSome_of_mem_keys {α : Type} :
    ∀ (l : List (String × α)) (k : String), k ∈ l.map Prod.fst →
      (List.lookup k l).isSome = true
  | [], k, h => absurd h (List.not_mem_nil k)
  | (pk, pv) :: t, k, h => by
    by_cases hk : k = pk
    · subst hk
      simp [List.lookup_cons]
    · have hb : (k == pk) = false := beq_eq_false_iff_ne.mpr hk
      simp only [List.lookup_cons, hb]
      refine lookup_isSome_of_mem_keys t k ?_
      rcases List.mem_cons.mp h with h1 | h2
      · exact absurd h1 hk
      · exact h2

/-- C5: for an admin session whose summary load succeeds, when the per-user
detail fetch for one discovered user fails (throw or `success:false`), that
user's conversation is the normalized summary-derived provisional group,
while every discovered user whose fetch succeeded gets the normalized
authoritative fetch result — the one failure aborts nothing. -/
theorem loadMessages_admin_isolated_failure (now : Nat) (fresh : Nat → String)
    (u : AuthUser) (env : LoadEnv) (st : ProviderState) (msgs : List MsgObj)
    (fuid : String)
    (hadm : u.isAdmin = true)
    (hresp : env.adminAll = some (true, msgs))
    (hmem : fuid ∈ (adminGroup msgs).1.map Prod.fst)
    (hfail : env.perUser fuid = ConvFetch.threw ∨
      ∃ d, env.perUser fuid = ConvFetch.resp false d) :
    List.lookup fuid (loadMessages now fresh (some u) env st).conversations
      = some (normalizeMessagesArray now fresh
          (((List.lookup fuid (adminGroup msgs).1).getD []).map some)) ∧
    ∀ uid d, env.perUser uid = ConvFetch.resp true d →
      (List.lookup uid (adminGroup msgs).1).isSome = true →
      List.lookup uid (loadMessages now fresh (some u) env st).conversations
        = some (normalizeMessagesArray now fresh (d.map some)) := by
  have hconv : (loadMessages now fresh (some u) env st).conversations =
      (adminGroup msgs).1.map fun p => (p.1, convFor now fresh env p.1 p.2) := by
    simp [loadMessages, hadm, hresp]
  constructor
  · rw [hconv, lookup_map_value (convFor now fresh env)]
    obtain ⟨prov, hprov⟩ :=
      Option.isSome_iff_exists.mp (lookup_isSome_of_mem_keys _ fuid hmem)
    rw [hprov]
    rcases hfail with hf | ⟨d, hf⟩ <;> simp [convFor, hf]
  · intro uid d hok hsome2
    rw [hconv, lookup_map_value (convFor now fresh env)]
    obtain ⟨prov, hprov⟩ := Option.isSome_iff_exists.mp hsome2
    rw [hprov]
    simp [convFor, hok]

/-- A summary message grouped under conversation id `A`. -/
def c5mA : MsgObj :=
  { conversation := some "A", senderType := some "user", text := some "x", createdAt := some 1 }

/-- A summary message grouped under conversation id `B`. -/
def c5mB : MsgObj :=
  { conversation := some "B", senderType := some "user", text := some "y", createdAt := some 2 }

/-- The authoritative per-user fetch result for `A`. -/
def c5fetchA : MsgObj :=
  { mid := some "fa", text := some "x2", senderType := some "user", createdAt := some 1 }

/-- An environment where the summary succeeds, `A`'s detail fetch succeeds
and `B`'s detail fetch throws. -/
def c5env : LoadEnv :=
  { adminAll := some (true, [c5mA, c5mB])
    perUser := fun uid => if uid = "A" then ConvFetch.resp true [c5fetchA] else ConvFetch.threw
    getMsgs := none }

/-- Witness for C5: with `B`'s fetch failing, `B` keeps the provisional
grouping and `A` gets the authoritative fetch. -/
theorem loadMessages_admin_isolated_failure_witness :
    List.lookup "B" (loadMessages 3 (fun _ => "r") (some adminU) c5env {}).conversations
      = some (normalizeMessagesArray 3 (fun _ => "r")
          (((List.lookup "B" (adminGroup [c5mA, c5mB]).1).getD []).map some)) ∧
    List.lookup "A" (loadMessages 3 (fun _ => "r") (some adminU) c5env {}).conversations
      = some (normalizeMessagesArray 3 (fun _ => "r") ([c5fetchA].map some)) :=
  ⟨(loadMessages_admin_isolated_failure 3 (fun _ => "r") adminU c5env {}
      [c5mA, c5mB] "B" rfl rfl (by decide) (Or.inl (by decide))).1,
   (loadMessages_admin_isolated_failure 3 (fun _ => "r") adminU c5env {}
      [c5mA, c5mB] "B" rfl rfl (by decide) (Or.inl (by decide))).2
     "A" [c5fetchA] (by decide) (by decide)⟩

theorem V2.buildConvMap_congr (env env2 : String → ConvFetch) :
    ∀ (l : List KnownUser) (acc : List (String × List MsgObj)),
      (∀ x ∈ l, env x.id = env2 x.id) →
      V2.buildConvMap env l acc = V2.buildConvMap env2 l acc
  | [], _, _ => rfl
  | u :: rest, acc, h => by
    have hu : env u.id = env2 u.id := h u (by simp)
    simp only [V2.buildConvMap, V2.fetchedConv, hu]
    exact V2.buildConvMap_congr env env2 rest _ fun x hx => h x (by simp [hx])

/-- C9: in the summary-based variant, per-conversation fetches are issued
only for the first 20 users of the summary list (the map depends on nothing
else of the environment), and the resulting conversations map has an entry
for a user exactly when that user is among the first 20 and their fetch
fulfilled with `success:true` — users beyond the 20th and users whose fetch
failed are absent; present entries hold the mapped, reversed fetch data. -/
theorem V2.loadMessages_first20_success_only (summaries : List V2.Summary)
    (env : String → ConvFetch) (uid : String) :
    ((List.lookup uid (V2.adminConvMap summaries env)).isSome = true ↔
      ((((V2.usersListOf summaries).take 20).any fun x => x.id == uid) = true ∧
        V2.fetchOk (env uid) = true)) ∧
    (∀ d, env uid = ConvFetch.resp true d →
      (((V2.usersListOf summaries).take 20).any fun x => x.id == uid) = true →
      List.lookup uid (V2.adminConvMap summaries env)
        = some ((d.map V2.v2norm).reverse)) ∧
    (∀ env2 : String → ConvFetch,
      (∀ x ∈ (V2.usersListOf summaries).take 20, env x.id = env2 x.id) →
      V2.adminConvMap summaries env = V2.adminConvMap summaries env2) := by
  refine ⟨?_, ?_, ?_⟩
  · rw [V2.adminConvMap, V2.lookup_buildConvMap]
    by_cases h1 : (((V2.usersListOf summaries).take 20).any fun x => x.id == uid) = true <;>
      by_cases h2 : V2.fetchOk (env uid) = true <;>
        simp [h1, h2]
  · intro d hd hmem
    rw [V2.adminConvMap, V2.lookup_buildConvMap]
    have hok : V2.fetchOk (env uid) = true := by rw [hd]; rfl
    rw [if_pos (by rw [hmem, hok]; rfl)]
    simp [V2.fetchedConv, V2.fetchData, hd]
  · intro env2 hsame
    rw [V2.adminConvMap, V2.adminConvMap]
    exact V2.buildConvMap_congr env env2 _ _ hsame

/-- Witness for C9 at one summary and an always-successful environment. -/
theorem V2_loadMessages_first20_success_only_witness :
    (List.lookup "s1" (V2.adminConvMap [{ cid := "s1" }]
      (fun _ => ConvFetch.resp true []))).isSome = true :=
  (V2.loadMessages_first20_success_only [{ cid := "s1" }]
    (fun _ => ConvFetch.resp true []) "s1").1.mpr ⟨by decide, rfl⟩

/-- A concrete non-admin session used by counterexamples and witnesses. -/
def plainU : AuthUser :=
  { id := "u1", isAdmin := false, name := "N", email := "e" }

/-- A backend-confirmed sent message timestamped 10. -/
def c3data : MsgObj :=
  { mid := some "s1", text := some "hi", senderType := some "user", createdAt := some 10 }

/-- An auto-reply the backend timestamped 5 — earlier than the sent message. -/
def c3reply : MsgObj :=
  { mid := some "a1", text := some "auto", senderType := some "admin", createdAt := some 5 }

/-- An auto-reply timestamped 12 — not earlier than the sent message. -/
def c3replyLate : MsgObj :=
  { mid := some "a1", text := some "auto", senderType := some "admin", createdAt := some 12 }

/-- C3 counterexample: when the backend's auto-reply carries an earlier
timestamp than the confirmed sent message, the re-sorting by `createdAt`
places the auto-reply (`a1`) **before** the sent message (`s1`), refuting the
claimed ordering "confirmed sent message before the auto-reply". -/
theorem sendMessage_autoReply_order_counterexample :
    ((List.lookup "u1" (sendMessage 0 (fun _ => "r") (some plainU)
        (SendOutcome.ok c3data (some c3reply)) "hi" {}).conversations).getD []).map MsgObj.id
      = [some "a1", some "s1"] := by
  decide

theorem length_insertAfterTies (a : MsgObj) :
    ∀ l : List MsgObj, (insertAfterTies a l).length = l.length + 1
  | [] => rfl
  | b :: t => by
    by_cases h : keyOf a < keyOf b <;>
      simp [insertAfterTies, h, length_insertAfterTies a t]

/-- C3 amended: a successful send appends exactly one confirmed (non-pending,
given the backend response carries no pending flag) message to the
conversation keyed by `successConvId` and mirrors it to local persistence;
when the response carries an auto-reply, exactly two messages are appended
and both are mirrored, and the confirmed message is ordered before the
auto-reply **provided** the auto-reply's effective timestamp is not earlier
than the sent message's (the conversation is re-sorted by timestamp with a
stable tie-break; an earlier-stamped reply sorts first, see the
counterexample). -/
theorem sendMessage_success_appends_confirmed (now : Nat) (fresh : Nat → String)
    (u : AuthUser) (data : MsgObj) (autoReply : Option MsgObj) (text : String)
    (st : ProviderState)
    (hpend : data.pending = false)
    (hts : ∀ ar ∈ autoReply,
      keyOf (normalizeMsg1 now (fresh 0) data) ≤ keyOf (normalizeMsg1 now (fresh 0) ar)) :
    (normalizeMsg1 now (fresh 0) data).pending = false ∧
    normalizeMsg1 now (fresh 0) data ∈
      (List.lookup (successConvId u (normalizeMsg1 now (fresh 0) data))
        (sendMessage now fresh (some u) (SendOutcome.ok data autoReply) text
          st).conversations).getD [] ∧
    (autoReply = none →
      ((List.lookup (successConvId u (normalizeMsg1 now (fresh 0) data))
          (sendMessage now fresh (some u) (SendOutcome.ok data autoReply) text
            st).conversations).getD []).length =
        ((List.lookup (successConvId u (normalizeMsg1 now (fresh 0) data))
          st.conversations).getD []).length + 1 ∧
      (List.lookup (msgsKey (successConvId u (normalizeMsg1 now (fresh 0) data)))
          (sendMessage now fresh (some u) (SendOutcome.ok data autoReply) text
            st).localStore).getD [] =
        (List.lookup (msgsKey (successConvId u (normalizeMsg1 now (fresh 0) data)))
          st.localStore).getD [] ++ [normalizeMsg1 now (fresh 0) data]) ∧
    (∀ ar, autoReply = some ar →
      ((List.lookup (successConvId u (normalizeMsg1 now (fresh 0) data))
          (sendMessage now fresh (some u) (SendOutcome.ok data autoReply) text
            st).conversations).getD []).length =
        ((List.lookup (successConvId u (normalizeMsg1 now (fresh 0) data))
          st.conversations).getD []).length + 2 ∧
      [normalizeMsg1 now (fresh 0) data, normalizeMsg1 now (fresh 0) ar].Sublist
        ((List.lookup (successConvId u (normalizeMsg1 now (fresh 0) data))
          (sendMessage now fresh (some u) (SendOutcome.ok data autoReply) text
            st).conversations).getD []) ∧
      (List.lookup (msgsKey (successConvId u (normalizeMsg1 now (fresh 0) data)))
          (sendMessage now fresh (some u) (SendOutcome.ok data autoReply) text
            st).localStore).getD [] =
        (List.lookup (msgsKey (successConvId u (normalizeMsg1 now (fresh 0) data)))
          st.localStore).getD [] ++ [normalizeMsg1 now (fresh 0) data, ar]) := by
  rcases autoReply with _ | ar
  · have hconv : (sendMessage now fresh (some u) (SendOutcome.ok data none) text
        st).conversations =
        setKey st.conversations (successConvId u (normalizeMsg1 now (fresh 0) data))
          (normalizeMessagesArray now fresh
            ((((List.lookup (successConvId u (normalizeMsg1 now (fresh 0) data))
              st.conversations).getD []) ++ [normalizeMsg1 now (fresh 0) data]).map some)) := by
      cases hua : u.isAdmin <;> simp [sendMessage, hua]
    have hstore : (sendMessage now fresh (some u) (SendOutcome.ok data none) text
        st).localStore =
        saveMessageLocally (normalizeMsg1 now (fresh 0) data)
          (successConvId u (normalizeMsg1 now (fresh 0) data)) st.localStore := by
      cases hua : u.isAdmin <;> simp [sendMessage, hua]
    refine ⟨hpend, ?_, fun _ => ⟨?_, ?_⟩, fun ar har => Option.noConfusion har⟩
    · rw [hconv, lookup_setKey_self, Option.getD_some]
      exact mem_normArr_append_fixed now fresh _ _ (normFixed_normalizeMsg1 now (fresh 0) data)
    · rw [hconv, lookup_setKey_self, Option.getD_some,
        length_normArr_map_some, List.length_append, List.length_singleton]
    · rw [hstore, saveMessageLocally, lookup_setKey_self, Option.getD_some]
  · have hconv : (sendMessage now fresh (some u) (SendOutcome.ok data (some ar)) text
        st).conversations =
        setKey st.conversations (successConvId u (normalizeMsg1 now (fresh 0) data))
          (normalizeMessagesArray now fresh
            (((normalizeMessagesArray now fresh
                ((((List.lookup (successConvId u (normalizeMsg1 now (fresh 0) data))
                  st.conversations).getD []) ++ [normalizeMsg1 now (fresh 0) data]).map some))
              ++ [normalizeMsg1 now (fresh 0) ar]).map some)) := by
      cases hua : u.isAdmin <;> simp [sendMessage, hua]
    have hstore : (sendMessage now fresh (some u) (SendOutcome.ok data (some ar)) text
        st).localStore =
        saveMessageLocally ar (successConvId u (normalizeMsg1 now (fresh 0) data))
          (saveMessageLocally (normalizeMsg1 now (fresh 0) data)
            (successConvId u (normalizeMsg1 now (fresh 0) data)) st.localStore) := by
      cases hua : u.isAdmin <;> simp [sendMessage, hua]
    have hfix_upd : ∀ x ∈ normalizeMessagesArray now fresh
        ((((List.lookup (successConvId u (normalizeMsg1 now (fresh 0) data))
          st.conversations).getD []) ++ [normalizeMsg1 now (fresh 0) data]).map some),
        NormFixed now x := by
      intro x hx
      exact normMap_mem_fixed now fresh 0 _ x ((List.mem_insertionSort leKey).mp hx)
    have hall : ∀ x ∈ (normalizeMessagesArray now fresh
        ((((List.lookup (successConvId u (normalizeMsg1 now (fresh 0) data))
          st.conversations).getD []) ++ [normalizeMsg1 now (fresh 0) data]).map some))
        ++ [normalizeMsg1 now (fresh 0) ar], NormFixed now x := by
      intro x hx
      rcases List.mem_append.mp hx with hx | hx
      · exact hfix_upd x hx
      · rcases List.mem_singleton.mp hx with rfl
        exact normFixed_normalizeMsg1 now (fresh 0) ar
    have hreply : normalizeMessagesArray now fresh
        (((normalizeMessagesArray now fresh
            ((((List.lookup (successConvId u (normalizeMsg1 now (fresh 0) data))
              st.conversations).getD []) ++ [normalizeMsg1 now (fresh 0) data]).map some))
          ++ [normalizeMsg1 now (fresh 0) ar]).map some) =
        insertAfterTies (normalizeMsg1 now (fresh 0) ar)
          (normalizeMessagesArray now fresh
            ((((List.lookup (successConvId u (normalizeMsg1 now (fresh 0) data))
              st.conversations).getD []) ++ [normalizeMsg1 now (fresh 0) data]).map some)) := by
      rw [normalizeMessagesArray, normMap_map_some_of_fixed now fresh 0 _ hall]
      exact insertionSort_append_singleton _ _ (sorted_normalizeMessagesArray now fresh _)
    have hsent_mem : normalizeMsg1 now (fresh 0) data ∈ normalizeMessagesArray now fresh
        ((((List.lookup (successConvId u (normalizeMsg1 now (fresh 0) data))
          st.conversations).getD []) ++ [normalizeMsg1 now (fresh 0) data]).map some) :=
      mem_normArr_append_fixed now fresh _ _ (normFixed_normalizeMsg1 now (fresh 0) data)
    refine ⟨hpend, ?_, fun hnone => Option.noConfusion hnone, fun ar2 har2 => ?_⟩
    · rw [hconv, lookup_setKey_self, Option.getD_some, hreply]
      exact mem_insertAfterTies.mpr (Or.inr hsent_mem)
    · obtain rfl : ar2 = ar := by
        injection har2 with h
        exact h.symm
      refine ⟨?_, ?_, ?_⟩
      · rw [hconv, lookup_setKey_self, Option.getD_some, hreply, length_insertAfterTies,
          length_normArr_map_some, List.length_append, List.length_singleton]
      · rw [hconv, lookup_setKey_self, Option.getD_some, hreply]
        exact sublist_pair_insertAfterTies (hts _ rfl)
          (sorted_normalizeMessagesArray now fresh _) hsent_mem
      · rw [hstore, saveMessageLocally, lookup_setKey_self, Option.getD_some,
          saveMessageLocally, lookup_setKey_self, Option.getD_some, List.append_assoc]
        rfl

/-- Witness for the amended C3: a reply stamped after the sent message keeps
the confirmed-before-reply order, and both records are mirrored. -/
theorem sendMessage_success_appends_confirmed_witness :
    normalizeMsg1 7 "r" c3data ∈
      (List.lookup "u1" (sendMessage 7 (fun _ => "r") (some plainU)
        (SendOutcome.ok c3data (some c3replyLate)) "hi" {}).conversations).getD [] ∧
    [normalizeMsg1 7 "r" c3data, normalizeMsg1 7 "r" c3replyLate].Sublist
      ((List.lookup "u1" (sendMessage 7 (fun _ => "r") (some plainU)
        (SendOutcome.ok c3data (some c3replyLate)) "hi" {}).conversations).getD []) ∧
    (List.lookup (msgsKey "u1") (sendMessage 7 (fun _ => "r") (some plainU)
        (SendOutcome.ok c3data (some c3replyLate)) "hi" {}).localStore).getD []
      = [normalizeMsg1 7 "r" c3data, c3replyLate] :=
  ⟨(sendMessage_success_appends_confirmed 7 (fun _ => "r") plainU c3data
      (some c3replyLate) "hi" {} rfl
      (fun ar har => by rw [← Option.some_inj.mp har]; decide)).2.1,
   ((sendMessage_success_appends_confirmed 7 (fun _ => "r") plainU c3data
      (some c3replyLate) "hi" {} rfl
      (fun ar har => by rw [← Option.some_inj.mp har]; decide)).2.2.2
      c3replyLate rfl).2.1,
   ((sendMessage_success_appends_confirmed 7 (fun _ => "r") plainU c3data
      (some c3replyLate) "hi" {} rfl
      (fun ar har => by rw [← Option.some_inj.mp har]; decide)).2.2.2
      c3replyLate rfl).2.2⟩

/-- A stored record timestamped 10, saved before a later record timestamped 5
(reachable whenever the backend confirms a send with an earlier server
timestamp than an already-persisted record). -/
def c8m10 : MsgObj :=
  { id := some "x", text := some "t1", senderType := some "user", createdAt := some 10 }

/-- A stored record timestamped 5, persisted after `c8m10`. -/
def c8m5 : MsgObj :=
  { id := some "y", text := some "t2", senderType := some "user", createdAt := some 5 }

/-- A state whose local store holds an out-of-order persisted conversation. -/
def c8state : ProviderState :=
  { localStore := [("autocare_messages_u1", [c8m10, c8m5])] }

/-- An environment where the admin summary load throws. -/
def c8env : LoadEnv :=
  { adminAll := none, perUser := fun _ => ConvFetch.threw, getMsgs := none }

/-- C8 counterexample: the admin local-storage fallback of the initial load
installs the raw persisted arrays without normalizing, so after the load the
`u1` conversation is `[t=10, t=5]` — not in non-decreasing timestamp order,
refuting the invariant for the initial-load operation. -/
theorem admin_local_fallback_unsorted_counterexample :
    ¬ List.Sorted leKey ((List.lookup "u1"
      (loadMessages 0 (fun _ => "r") (some adminU) c8env c8state).conversations).getD []) := by
  intro h
  have hconv : (List.lookup "u1"
      (loadMessages 0 (fun _ => "r") (some adminU) c8env c8state).conversations).getD []
      = [c8m10, c8m5] := by decide
  rw [hconv] at h
  have hle : leKey c8m10 c8m5 := List.rel_of_sorted_cons h c8m5 (by simp)
  exact absurd hle (by decide)

/-- The conversation the operation left at a key is either freshly sorted or
the untouched previous entry. -/
def SortedOrSame (res old : Option (List MsgObj)) : Prop :=
  match res with
  | some l => List.Sorted leKey l ∨ old = some l
  | none => True

theorem sortedOrSame_refl (o : Option (List MsgObj)) : SortedOrSame o o := by
  cases o with
  | none => trivial
  | some l => exact Or.inr rfl

theorem sortedOrSame_of_eq {st1 st2 : ProviderState} (k : String)
    (h : st1 = st2) :
    SortedOrSame (List.lookup k st1.conversations) (List.lookup k st2.conversations) := by
  rw [h]
  exact sortedOrSame_refl _

theorem sortedOrSame_setKey_normArr (now : Nat) (fresh : Nat → String)
    (convs : List (String × List MsgObj)) (key k : String)
    (arr : List (Option MsgObj)) :
    SortedOrSame (List.lookup k (setKey convs key (normalizeMessagesArray now fresh arr)))
      (List.lookup k convs) := by
  by_cases h : k = key
  · subst h
    rw [lookup_setKey_self]
    exact Or.inl (sorted_normalizeMessagesArray now fresh arr)
  · rw [lookup_setKey_ne _ _ _ _ h]
    exact sortedOrSame_refl _

theorem sortedOrSame_singleton_normArr (now : Nat) (fresh : Nat → String)
    (k uid : String) (arr : List (Option MsgObj))
    (old : Option (List MsgObj)) :
    SortedOrSame (List.lookup k [(uid, normalizeMessagesArray now fresh arr)]) old := by
  by_cases h : k = uid
  · subst h
    simp only [List.lookup_cons, beq_self_eq_true]
    exact Or.inl (sorted_normalizeMessagesArray now fresh arr)
  · have hb : (k == uid) = false := beq_eq_false_iff_ne.mpr h
    simp only [List.lookup_cons, hb]
    trivial

theorem sorted_convFor (now : Nat) (fresh : Nat → String) (env : LoadEnv)
    (uid : String) (provisional : List MsgObj) :
    List.Sorted leKey (convFor now fresh env uid provisional) := by
  unfold convFor
  cases h : env.perUser uid with
  | threw => exact sorted_normalizeMessagesArray now fresh _
  | resp s d => cases s <;> exact sorted_normalizeMessagesArray now fresh _

theorem sortedOrSame_entries (now : Nat) (fresh : Nat → String) (env : LoadEnv)
    (k : String) (g1 : List (String × List MsgObj)) (old : Option (List MsgObj)) :
    SortedOrSame
      (List.lookup k (g1.map fun p => (p.1, convFor now fresh env p.1 p.2))) old := by
  rw [lookup_map_value (convFor now fresh env)]
  cases h : List.lookup k g1 with
  | none => trivial
  | some prov => exact Or.inl (sorted_convFor now fresh env k prov)

/-- C8 amended: every mutating operation except the admin local-storage
fallback of the initial load leaves each conversation either freshly
normalized — hence in non-decreasing timestamp order — or untouched: event
receipt, send success/failure (both send operations), and every non-admin
load path re-establish sortedness of the conversation they write, and the
admin load does so for every conversation when the summary call succeeds.
The excluded fallback installs raw persisted arrays (see the
counterexample). -/
theorem mutating_ops_keep_sorted (now : Nat) (fresh : Nat → String)
    (user : Option AuthUser) (d : MsgEvent) (outcome : SendOutcome)
    (text uid2 : String) (env : LoadEnv) (st : ProviderState) (k : String)
    (hload : match user, env.adminAll with
      | some u, some (s, _) => u.isAdmin = true → s = true
      | some u, none => u.isAdmin = false
      | none, _ => True) :
    SortedOrSame (List.lookup k (handleMessageReceived now fresh user d st).conversations)
      (List.lookup k st.conversations) ∧
    SortedOrSame (List.lookup k (sendMessage now fresh user outcome text st).conversations)
      (List.lookup k st.conversations) ∧
    SortedOrSame
      (List.lookup k (sendMessageToUser now fresh user outcome uid2 text st).conversations)
      (List.lookup k st.conversations) ∧
    SortedOrSame (List.lookup k (loadMessages now fresh user env st).conversations)
      (List.lookup k st.conversations) := by
  refine ⟨?_, ?_, ?_, ?_⟩
  · rcases user with _ | u
    · exact sortedOrSame_refl _
    · cases hua : u.isAdmin
      · refine sortedOrSame_of_eq k ?_
        simp [handleMessageReceived, hua]
      · cases hrs : resolvedSender d with
        | none =>
          refine sortedOrSame_of_eq k ?_
          simp [handleMessageReceived, hua, hrs]
        | some sid =>
          have hc : (handleMessageReceived now fresh (some u) d st).conversations =
              setKey st.conversations sid (normalizeMessagesArray now fresh
                ((((List.lookup sid st.conversations).getD [])
                  ++ [normalizeMsg1 now (fresh 0) (d.message.getD d.asMsg)]).map some)) := by
            simp [handleMessageReceived, hua, hrs]
          rw [hc]
          exact sortedOrSame_setKey_normArr now fresh _ _ _ _
  · rcases user with _ | u
    · exact sortedOrSame_refl _
    · rcases outcome with ⟨data, _ | ar⟩ | _
      · have hc : (sendMessage now fresh (some u) (SendOutcome.ok data none) text
            st).conversations =
            setKey st.conversations (successConvId u (normalizeMsg1 now (fresh 0) data))
              (normalizeMessagesArray now fresh
                ((((List.lookup (successConvId u (normalizeMsg1 now (fresh 0) data))
                  st.conversations).getD [])
                  ++ [normalizeMsg1 now (fresh 0) data]).map some)) := by
          cases hua : u.isAdmin <;> simp [sendMessage, hua]
        rw [hc]
        exact sortedOrSame_setKey_normArr now fresh _ _ _ _
      · have hc : (sendMessage now fresh (some u) (SendOutcome.ok data (some ar)) text
            st).conversations =
            setKey st.conversations (successConvId u (normalizeMsg1 now (fresh 0) data))
              (normalizeMessagesArray now fresh
                (((normalizeMessagesArray now fresh
                    ((((List.lookup (successConvId u (normalizeMsg1 now (fresh 0) data))
                      st.conversations).getD [])
                      ++ [normalizeMsg1 now (fresh 0) data]).map some))
                  ++ [normalizeMsg1 now (fresh 0) ar]).map some)) := by
          cases hua : u.isAdmin <;> simp [sendMessage, hua]
        rw [hc]
        exact sortedOrSame_setKey_normArr now fresh _ _ _ _
      · have hc : (sendMessage now fresh (some u) SendOutcome.fail text st).conversations =
            setKey st.conversations u.id (normalizeMessagesArray now fresh
              ((((List.lookup u.id st.conversations).getD [])
                ++ [pendingLocalMsg now (if u.isAdmin then "admin" else "user") text]).map
                  some)) := by
          cases hua : u.isAdmin <;> simp [sendMessage, hua]
        rw [hc]
        exact sortedOrSame_setKey_normArr now fresh _ _ _ _
  · rcases user with _ | u
    · exact sortedOrSame_refl _
    · cases hua : u.isAdmin
      · refine sortedOrSame_of_eq k ?_
        simp [sendMessageToUser, hua]
      · rcases outcome with ⟨data, ar⟩ | _
        · have hc : (sendMessageToUser now fresh (some u) (SendOutcome.ok data ar) uid2 text
              st).conversations =
              setKey st.conversations uid2 (normalizeMessagesArray now fresh
                ((((List.lookup uid2 st.conversations).getD [])
                  ++ [normalizeMsg1 now (fresh 0) data]).map some)) := by
            simp [sendMessageToUser, hua]
          rw [hc]
          exact sortedOrSame_setKey_normArr now fresh _ _ _ _
        · have hc : (sendMessageToUser now fresh (some u) SendOutcome.fail uid2 text
              st).conversations =
              setKey st.conversations uid2 (normalizeMessagesArray now fresh
                ((((List.lookup uid2 st.conversations).getD [])
                  ++ [pendingLocalMsg now "admin" text]).map some)) := by
            simp [sendMessageToUser, hua]
          rw [hc]
          exact sortedOrSame_setKey_normArr now fresh _ _ _ _
  · rcases user with _ | u
    · exact sortedOrSame_refl _
    · cases hua : u.isAdmin
      · have hnonadmin : ∃ arr, (loadMessages now fresh (some u) env st).conversations =
            [(u.id, normalizeMessagesArray now fresh arr)] := by
          rcases hm : u.messages with _ | ms
          · rcases hg : env.getMsgs with _ | ⟨s, dl⟩
            · exact ⟨((List.lookup (msgsKey u.id) st.localStore).getD []).map some,
                by simp [loadMessages, loadNonAdminFetch, hua, hm, hg]⟩
            · cases s
              · exact ⟨((List.lookup (msgsKey u.id) st.localStore).getD []).map some,
                  by simp [loadMessages, loadNonAdminFetch, hua, hm, hg]⟩
              · exact ⟨dl.map some,
                  by simp [loadMessages, loadNonAdminFetch, hua, hm, hg]⟩
          · by_cases hlen : ms.length > 0
            · exact ⟨ms.map some, by simp [loadMessages, hua, hm, hlen]⟩
            · rcases hg : env.getMsgs with _ | ⟨s, dl⟩
              · exact ⟨ms.map some,
                  by simp [loadMessages, loadNonAdminFetch, hua, hm, hlen, hg]⟩
              · cases s
                · exact ⟨((List.lookup (msgsKey u.id) st.localStore).getD []).map some,
                    by simp [loadMessages, loadNonAdminFetch, hua, hm, hlen, hg]⟩
                · exact ⟨dl.map some,
                    by simp [loadMessages, loadNonAdminFetch, hua, hm, hlen, hg]⟩
        obtain ⟨arr, harr⟩ := hnonadmin
        rw [harr]
        exact sortedOrSame_singleton_normArr now fresh k u.id arr _
      · rcases ha : env.adminAll with _ | ⟨s, msgs⟩
        · rw [ha] at hload
          have hf : u.isAdmin = false := hload
          rw [hua] at hf
          exact absurd hf (by decide)
        · have hs : s = true := by
            rw [ha] at hload
            exact hload hua
          subst hs
          have hc : (loadMessages now fresh (some u) env st).conversations =
              (adminGroup msgs).1.map fun p => (p.1, convFor now fresh env p.1 p.2) := by
            simp [loadMessages, hua, ha]
          rw [hc]
          exact sortedOrSame_entries now fresh env k _ _

/-- Witness for the amended C8 at a concrete non-admin session (the load
hypothesis holds since the session is not an admin). -/
theorem mutating_ops_keep_sorted_witness :
    SortedOrSame (List.lookup "u1"
        (handleMessageReceived 4 (fun _ => "r") (some plainU) dupEvent {}).conversations)
      (List.lookup "u1" ({} : ProviderState).conversations) ∧
    SortedOrSame (List.lookup "u1"
        (sendMessage 4 (fun _ => "r") (some plainU) SendOutcome.fail "hi" {}).conversations)
      (List.lookup "u1" ({} : ProviderState).conversations) ∧
    SortedOrSame (List.lookup "u1"
        (sendMessageToUser 4 (fun _ => "r") (some plainU) SendOutcome.fail "u2" "hi"
          {}).conversations)
      (List.lookup "u1" ({} : ProviderState).conversations) ∧
    SortedOrSame (List.lookup "u1"
        (loadMessages 4 (fun _ => "r") (some plainU) c8env {}).conversations)
      (List.lookup "u1" ({} : ProviderState).conversations) :=
  mutating_ops_keep_sorted 4 (fun _ => "r") (some plainU) dupEvent SendOutcome.fail
    "hi" "u2" c8env {} "u1" rfl

end AutoCare
